import Mathlib

/-!
Verification of the execution core of the Drift isolated-trade service:
the instruction decoder (decoder.rs), the worker IPC bridge (ipc.rs) and
the transaction executor (executor.rs), embedded shallowly as executable
Lean definitions together with theorems about the properties the
specification states for them.
-/

set_option maxRecDepth 4000

namespace Drift

/-- Bytes are machine u8 values. -/
abbrev Byte := Fin 256

/-- Machine u16 values. -/
abbrev U16 := Fin 65536

/-- Machine u64 values (also the raw two-complement bit pattern of i64). -/
abbrev U64 := Fin 18446744073709551616

/-- Raw 32-bit pattern of i32 values. -/
abbrev I32bits := Fin 4294967296

namespace SHA256

/-!
The source computes anchor discriminators with the external sha2 crate.
We embed SHA-256 itself (FIPS 180-4, byte-oriented) so that the
discriminator constants are computed, not asserted.
-/

/-- Modulus for 32-bit words. -/
def M32 : Nat := 4294967296

/-- Right rotation of a 32-bit word. -/
def rotr (n x : Nat) : Nat := ((x >>> n) ||| (x <<< (32 - n))) % M32

/-- Choice function of the compression round. -/
def ch (x y z : Nat) : Nat := (x &&& y) ^^^ ((x ^^^ 4294967295) &&& z)

/-- Majority function of the compression round. -/
def maj (x y z : Nat) : Nat := (x &&& y) ^^^ (x &&& z) ^^^ (y &&& z)

/-- Big sigma 0. -/
def bigS0 (x : Nat) : Nat := rotr 2 x ^^^ rotr 13 x ^^^ rotr 22 x

/-- Big sigma 1. -/
def bigS1 (x : Nat) : Nat := rotr 6 x ^^^ rotr 11 x ^^^ rotr 25 x

/-- Small sigma 0 of the message schedule. -/
def smallS0 (x : Nat) : Nat := rotr 7 x ^^^ rotr 18 x ^^^ (x >>> 3)

/-- Small sigma 1 of the message schedule. -/
def smallS1 (x : Nat) : Nat := rotr 17 x ^^^ rotr 19 x ^^^ (x >>> 10)

/-- The 64 round constants. -/
def roundK : List Nat :=
  [1116352408, 1899447441, 3049323471, 3921009573, 961987163, 1508970993, 2453635748, 2870763221,
   3624381080, 310598401, 607225278, 1426881987, 1925078388, 2162078206, 2614888103, 3248222580,
   3835390401, 4022224774, 264347078, 604807628, 770255983, 1249150122, 1555081692, 1996064986,
   2554220882, 2821834349, 2952996808, 3210313671, 3336571891, 3584528711, 113926993, 338241895,
   666307205, 773529912, 1294757372, 1396182291, 1695183700, 1986661051, 2177026350, 2456956037,
   2730485921, 2820302411, 3259730800, 3345764771, 3516065817, 3600352804, 4094571909, 275423344,
   430227734, 506948616, 659060556, 883997877, 958139571, 1322822218, 1537002063, 1747873779,
   1955562222, 2024104815, 2227730452, 2361852424, 2428436474, 2756734187, 3204031479, 3329325298]

/-- Running hash state: eight 32-bit words. -/
structure HashState where
  a : Nat
  b : Nat
  c : Nat
  d : Nat
  e : Nat
  f : Nat
  g : Nat
  h : Nat

/-- Initial hash value. -/
def initHash : HashState :=
  ⟨1779033703, 3144134277, 1013904242, 2773480762, 1359893119, 2600822924, 528734635, 1541459225⟩

/-- One extension step of the message schedule, appending word number 16+i. -/
def extendStep (acc : List Nat) : List Nat :=
  let n := acc.length
  acc ++ [(smallS1 (acc.getD (n - 2) 0) + acc.getD (n - 7) 0 +
           smallS0 (acc.getD (n - 15) 0) + acc.getD (n - 16) 0) % M32]

/-- Iterate the extension step a given number of times. -/
def extendLoop : Nat → List Nat → List Nat
  | 0, acc => acc
  | n + 1, acc => extendLoop n (extendStep acc)

/-- One compression round over the pair of round constant and schedule word. -/
def round (st : HashState) (kw : Nat × Nat) : HashState :=
  let t1 := (st.h + bigS1 st.e + ch st.e st.f st.g + kw.1 + kw.2) % M32
  let t2 := (bigS0 st.a + maj st.a st.b st.c) % M32
  ⟨(t1 + t2) % M32, st.a, st.b, st.c, (st.d + t1) % M32, st.e, st.f, st.g⟩

/-- Pointwise modular addition of hash states. -/
def addState (x y : HashState) : HashState :=
  ⟨(x.a + y.a) % M32, (x.b + y.b) % M32, (x.c + y.c) % M32, (x.d + y.d) % M32,
   (x.e + y.e) % M32, (x.f + y.f) % M32, (x.g + y.g) % M32, (x.h + y.h) % M32⟩

/-- Compress one 16-word block into the running state. -/
def compress (st : HashState) (block : List Nat) : HashState :=
  let w := extendLoop 48 block
  addState st ((roundK.zip w).foldl round st)

/-- Big-endian packing of bytes into 32-bit words. -/
def bytesToWords : List Nat → List Nat
  | a :: b :: c :: d :: rest => (((a * 256 + b) * 256 + c) * 256 + d) :: bytesToWords rest
  | _ => []

/-- Split a word list into 16-word blocks. -/
def chunkBlocks : List Nat → List (List Nat)
  | w0 :: w1 :: w2 :: w3 :: w4 :: w5 :: w6 :: w7 ::
    w8 :: w9 :: w10 :: w11 :: w12 :: w13 :: w14 :: w15 :: rest =>
      [w0, w1, w2, w3, w4, w5, w6, w7, w8, w9, w10, w11, w12, w13, w14, w15] :: chunkBlocks rest
  | _ => []

/-- Merkle-Damgard padding: 0x80, zeros, then the bit length in 8 big-endian bytes. -/
def padBytes (msg : List Nat) : List Nat :=
  let len := msg.length
  let zeros := (119 - len % 64) % 64
  let bitLen := len * 8
  msg ++ [128] ++ List.replicate zeros 0 ++
    [bitLen >>> 56 % 256, bitLen >>> 48 % 256, bitLen >>> 40 % 256, bitLen >>> 32 % 256,
     bitLen >>> 24 % 256, bitLen >>> 16 % 256, bitLen >>> 8 % 256, bitLen % 256]

/-- Big-endian bytes of one 32-bit word. -/
def wordBytes (w : Nat) : List Nat :=
  [w >>> 24 % 256, w >>> 16 % 256, w >>> 8 % 256, w % 256]

/-- SHA-256 digest (32 bytes) of a byte message. -/
def sha256 (msg : List Nat) : List Nat :=
  let final := (chunkBlocks (bytesToWords (padBytes msg))).foldl compress initHash
  wordBytes final.a ++ wordBytes final.b ++ wordBytes final.c ++ wordBytes final.d ++
  wordBytes final.e ++ wordBytes final.f ++ wordBytes final.g ++ wordBytes final.h

end SHA256

/-- ASCII bytes of a string. -/
def strBytes (s : String) : List Nat := s.toList.map Char.toNat

/-- First 8 bytes of SHA-256 of the string global:name, as in decoder.rs
(anchor_discriminator; the source delegates the hash to the sha2 crate). -/
def anchor_discriminator (name : String) : List Byte :=
  ((SHA256.sha256 (strBytes ("global:" ++ name))).take 8).map
    (fun n => (⟨n % 256, Nat.mod_lt _ (by norm_num)⟩ : Byte))

/-- DEPOSIT_DISC from decoder.rs. -/
def DEPOSIT_DISC : List Byte := anchor_discriminator "deposit_into_isolated_perp_position"

/-- WITHDRAW_DISC from decoder.rs. -/
def WITHDRAW_DISC : List Byte := anchor_discriminator "withdraw_from_isolated_perp_position"

/-- PLACE_PERP_ORDER_DISC from decoder.rs. -/
def PLACE_PERP_ORDER_DISC : List Byte := anchor_discriminator "place_perp_order"

/-- The deposit discriminator evaluates to its known constant bytes. -/
theorem DEPOSIT_DISC_eq :
    DEPOSIT_DISC = [0x65, 0x30, 0xff, 0x99, 0x7f, 0x79, 0xaa, 0x1a] := by decide

/-- The withdraw discriminator evaluates to its known constant bytes. -/
theorem WITHDRAW_DISC_eq :
    WITHDRAW_DISC = [0x25, 0x5c, 0xb2, 0x95, 0x8c, 0x4c, 0x9f, 0x87] := by decide

/-- The place-perp-order discriminator evaluates to its known constant bytes. -/
theorem PLACE_PERP_ORDER_DISC_eq :
    PLACE_PERP_ORDER_DISC = [0x45, 0xa1, 0x5d, 0xca, 0x78, 0x7e, 0x4c, 0xb9] := by decide

/-!
Borsh deserialization, as performed by the BorshDeserialize derives in
decoder.rs: little-endian integers, bool as one byte 0 or 1, Option as a
one-byte tag followed by the value, enums as one discriminant byte in
declaration order; try_from_slice requires the whole slice to be consumed.
-/

/-- Decode errors of decoder.rs: the explicit short-payload bail, or a
borsh deserialization failure propagated by the question-mark operator. -/
inductive DecodeError where
  | shortPayload
  | borshError
deriving DecidableEq

/-- A borsh reader consumes a prefix of the bytes or fails. -/
abbrev Reader (α : Type) := List Byte → Option (α × List Byte)

/-- Read one u8. -/
def readU8 : Reader Byte
  | [] => none
  | b :: rest => some (b, rest)

/-- Read a little-endian u16. -/
def readU16 : Reader U16
  | b0 :: b1 :: rest =>
      some (⟨b0.val + 256 * b1.val, by have h0 := b0.isLt; have h1 := b1.isLt; omega⟩, rest)
  | _ => none

/-- Read a little-endian u64 (also used for the byte pattern of i64). -/
def readU64 : Reader U64
  | b0 :: b1 :: b2 :: b3 :: b4 :: b5 :: b6 :: b7 :: rest =>
      some (⟨b0.val + 256 * b1.val + 65536 * b2.val + 16777216 * b3.val +
             4294967296 * b4.val + 1099511627776 * b5.val + 281474976710656 * b6.val +
             72057594037927936 * b7.val, by
        have h0 := b0.isLt; have h1 := b1.isLt; have h2 := b2.isLt; have h3 := b3.isLt
        have h4 := b4.isLt; have h5 := b5.isLt; have h6 := b6.isLt; have h7 := b7.isLt
        omega⟩, rest)
  | _ => none

/-- Read a little-endian 32-bit pattern (i32). -/
def readI32 : Reader I32bits
  | b0 :: b1 :: b2 :: b3 :: rest =>
      some (⟨b0.val + 256 * b1.val + 65536 * b2.val + 16777216 * b3.val, by
        have h0 := b0.isLt; have h1 := b1.isLt; have h2 := b2.isLt; have h3 := b3.isLt
        omega⟩, rest)
  | _ => none

/-- Read a borsh bool: byte 0 is false, byte 1 is true, anything else fails. -/
def readBool : Reader Bool
  | [] => none
  | b :: rest =>
      match b.val with
      | 0 => some (false, rest)
      | 1 => some (true, rest)
      | _ => none

/-- Read a borsh Option: tag byte 0 is None, tag byte 1 is Some followed by
the value, anything else fails. -/
def readOpt (rd : Reader α) : Reader (Option α) := fun bs =>
  match bs with
  | [] => none
  | t :: rest =>
      if t.val = 0 then some (none, rest)
      else if t.val = 1 then
        match rd rest with
        | some (a, r) => some (some a, r)
        | none => none
      else none

/-- OrderType from decoder.rs. -/
inductive OrderType where
  | market
  | limit
  | triggerMarket
  | triggerLimit
  | oracle
deriving DecidableEq

/-- Borsh enum discriminant reader for OrderType, variants in declaration order. -/
def OrderType.read : Reader OrderType
  | [] => none
  | b :: rest =>
      match b.val with
      | 0 => some (.market, rest)
      | 1 => some (.limit, rest)
      | 2 => some (.triggerMarket, rest)
      | 3 => some (.triggerLimit, rest)
      | 4 => some (.oracle, rest)
      | _ => none

/-- MarketType from decoder.rs. -/
inductive MarketType where
  | spot
  | perp
deriving DecidableEq

/-- Borsh enum discriminant reader for MarketType. -/
def MarketType.read : Reader MarketType
  | [] => none
  | b :: rest =>
      match b.val with
      | 0 => some (.spot, rest)
      | 1 => some (.perp, rest)
      | _ => none

/-- PositionDirection from decoder.rs. -/
inductive PositionDirection where
  | long
  | short
deriving DecidableEq

/-- Borsh enum discriminant reader for PositionDirection. -/
def PositionDirection.read : Reader PositionDirection
  | [] => none
  | b :: rest =>
      match b.val with
      | 0 => some (.long, rest)
      | 1 => some (.short, rest)
      | _ => none

/-- PostOnlyParam from decoder.rs. -/
inductive PostOnlyParam where
  | nonePostOnly
  | mustPostOnly
  | tryPostOnly
  | slide
deriving DecidableEq

/-- Borsh enum discriminant reader for PostOnlyParam. -/
def PostOnlyParam.read : Reader PostOnlyParam
  | [] => none
  | b :: rest =>
      match b.val with
      | 0 => some (.nonePostOnly, rest)
      | 1 => some (.mustPostOnly, rest)
      | 2 => some (.tryPostOnly, rest)
      | 3 => some (.slide, rest)
      | _ => none

/-- OrderTriggerCondition from decoder.rs. -/
inductive OrderTriggerCondition where
  | above
  | below
  | triggeredAbove
  | triggeredBelow
deriving DecidableEq

/-- Borsh enum discriminant reader for OrderTriggerCondition. -/
def OrderTriggerCondition.read : Reader OrderTriggerCondition
  | [] => none
  | b :: rest =>
      match b.val with
      | 0 => some (.above, rest)
      | 1 => some (.below, rest)
      | 2 => some (.triggeredAbove, rest)
      | 3 => some (.triggeredBelow, rest)
      | _ => none

/-- IsolatedPerpMovementArgs from decoder.rs. -/
structure IsolatedPerpMovementArgs where
  spot_market_index : U16
  perp_market_index : U16
  amount : U64
deriving DecidableEq

/-- Sequential composition of borsh readers. -/
def andThen (r : Reader α) (f : α → Reader β) : Reader β := fun bs =>
  match r bs with
  | some (a, rest) => f a rest
  | none => none

/-- Reader returning a value without consuming bytes. -/
def readPure (a : α) : Reader α := fun bs => some (a, bs)

/-- Borsh reader for IsolatedPerpMovementArgs, field order as declared. -/
def IsolatedPerpMovementArgs.read : Reader IsolatedPerpMovementArgs :=
  andThen readU16 fun s =>
  andThen readU16 fun p =>
  andThen readU64 fun a =>
  readPure (IsolatedPerpMovementArgs.mk s p a)

/-- OrderParams from decoder.rs; i64 fields carry their 64-bit pattern. -/
structure OrderParams where
  order_type : OrderType
  market_type : MarketType
  direction : PositionDirection
  user_order_id : Byte
  base_asset_amount : U64
  price : U64
  market_index : U16
  reduce_only : Bool
  post_only : PostOnlyParam
  bit_flags : Byte
  max_ts : Option U64
  trigger_price : Option U64
  trigger_condition : OrderTriggerCondition
  oracle_price_offset : Option I32bits
  auction_duration : Option Byte
  auction_start_price : Option U64
  auction_end_price : Option U64
deriving DecidableEq

/-- Borsh reader for OrderParams, field order as declared. -/
def OrderParams.read : Reader OrderParams :=
  andThen OrderType.read fun ot =>
  andThen MarketType.read fun mt =>
  andThen PositionDirection.read fun dir =>
  andThen readU8 fun uid =>
  andThen readU64 fun baa =>
  andThen readU64 fun pr =>
  andThen readU16 fun mi =>
  andThen readBool fun ro =>
  andThen PostOnlyParam.read fun po =>
  andThen readU8 fun bf =>
  andThen (readOpt readU64) fun mts =>
  andThen (readOpt readU64) fun tp =>
  andThen OrderTriggerCondition.read fun tc =>
  andThen (readOpt readI32) fun opo =>
  andThen (readOpt readU8) fun ad =>
  andThen (readOpt readU64) fun asp =>
  andThen (readOpt readU64) fun aep =>
  readPure (OrderParams.mk ot mt dir uid baa pr mi ro po bf mts tp tc opo ad asp aep)

/-- Run a reader on a whole slice, requiring the slice to be fully
consumed, like borsh try_from_slice. -/
def tryFromSlice (rd : Reader α) (bs : List Byte) : Except DecodeError α :=
  match rd bs with
  | some (a, []) => .ok a
  | _ => .error .borshError

/-- InstructionArgs, the tagged union of the three decoded instruction
payload kinds (kind plus details in decoder.rs). -/
inductive InstructionArgs where
  | depositIntoIsolatedPerpPosition (a : IsolatedPerpMovementArgs)
  | withdrawFromIsolatedPerpPosition (a : IsolatedPerpMovementArgs)
  | placePerpOrder (p : OrderParams)
deriving DecidableEq

/-- decode_drift_instruction from decoder.rs: bail on fewer than 8 bytes,
dispatch on the discriminator prefix, deserialize the remainder with
borsh, and return Ok(None) for an unknown discriminator. -/
def decode_drift_instruction (data : List Byte) : Except DecodeError (Option InstructionArgs) :=
  if data.length < 8 then .error .shortPayload
  else
    let disc := data.take 8
    let rest := data.drop 8
    if disc = DEPOSIT_DISC then
      match tryFromSlice IsolatedPerpMovementArgs.read rest with
      | .ok a => .ok (some (.depositIntoIsolatedPerpPosition a))
      | .error e => .error e
    else if disc = WITHDRAW_DISC then
      match tryFromSlice IsolatedPerpMovementArgs.read rest with
      | .ok a => .ok (some (.withdrawFromIsolatedPerpPosition a))
      | .error e => .error e
    else if disc = PLACE_PERP_ORDER_DISC then
      match tryFromSlice OrderParams.read rest with
      | .ok p => .ok (some (.placePerpOrder p))
      | .error e => .error e
    else .ok none

/-!
The fixed order-sensitive binary encoding the specification describes:
little-endian integers, enums as one discriminant byte in declaration
order, optional fields as a one-byte present tag followed by the value.
These definitions follow the wording of the specification and are the
encoding side of the round-trip property.
-/

/-- Little-endian encoding of a u16 value. -/
def specEncodeU16 (x : U16) : List Byte :=
  [⟨x.val % 256, Nat.mod_lt _ (by norm_num)⟩,
   ⟨x.val / 256 % 256, Nat.mod_lt _ (by norm_num)⟩]

/-- Little-endian encoding of a u64 value (also of the i64 bit pattern). -/
def specEncodeU64 (x : U64) : List Byte :=
  [⟨x.val % 256, Nat.mod_lt _ (by norm_num)⟩,
   ⟨x.val / 256 % 256, Nat.mod_lt _ (by norm_num)⟩,
   ⟨x.val / 65536 % 256, Nat.mod_lt _ (by norm_num)⟩,
   ⟨x.val / 16777216 % 256, Nat.mod_lt _ (by norm_num)⟩,
   ⟨x.val / 4294967296 % 256, Nat.mod_lt _ (by norm_num)⟩,
   ⟨x.val / 1099511627776 % 256, Nat.mod_lt _ (by norm_num)⟩,
   ⟨x.val / 281474976710656 % 256, Nat.mod_lt _ (by norm_num)⟩,
   ⟨x.val / 72057594037927936 % 256, Nat.mod_lt _ (by norm_num)⟩]

/-- Little-endian encoding of an i32 bit pattern. -/
def specEncodeI32 (x : I32bits) : List Byte :=
  [⟨x.val % 256, Nat.mod_lt _ (by norm_num)⟩,
   ⟨x.val / 256 % 256, Nat.mod_lt _ (by norm_num)⟩,
   ⟨x.val / 65536 % 256, Nat.mod_lt _ (by norm_num)⟩,
   ⟨x.val / 16777216 % 256, Nat.mod_lt _ (by norm_num)⟩]

/-- Encoding of a u8 value. -/
def specEncodeU8 (b : Byte) : List Byte := [b]

/-- Encoding of a bool as one byte. -/
def specEncodeBool (b : Bool) : List Byte :=
  [if b then ⟨1, by omega⟩ else ⟨0, by omega⟩]

/-- Encoding of an optional field: absent tag 0, or present tag 1 followed
by the encoded value. -/
def specEncodeOpt (enc : α → List Byte) : Option α → List Byte
  | none => [⟨0, by omega⟩]
  | some a => ⟨1, by omega⟩ :: enc a

/-- Discriminant byte of OrderType, declaration order. -/
def OrderType.specEncode : OrderType → List Byte
  | .market => [⟨0, by omega⟩]
  | .limit => [⟨1, by omega⟩]
  | .triggerMarket => [⟨2, by omega⟩]
  | .triggerLimit => [⟨3, by omega⟩]
  | .oracle => [⟨4, by omega⟩]

/-- Discriminant byte of MarketType, declaration order. -/
def MarketType.specEncode : MarketType → List Byte
  | .spot => [⟨0, by omega⟩]
  | .perp => [⟨1, by omega⟩]

/-- Discriminant byte of PositionDirection, declaration order. -/
def PositionDirection.specEncode : PositionDirection → List Byte
  | .long => [⟨0, by omega⟩]
  | .short => [⟨1, by omega⟩]

/-- Discriminant byte of PostOnlyParam, declaration order. -/
def PostOnlyParam.specEncode : PostOnlyParam → List Byte
  | .nonePostOnly => [⟨0, by omega⟩]
  | .mustPostOnly => [⟨1, by omega⟩]
  | .tryPostOnly => [⟨2, by omega⟩]
  | .slide => [⟨3, by omega⟩]

/-- Discriminant byte of OrderTriggerCondition, declaration order. -/
def OrderTriggerCondition.specEncode : OrderTriggerCondition → List Byte
  | .above => [⟨0, by omega⟩]
  | .below => [⟨1, by omega⟩]
  | .triggeredAbove => [⟨2, by omega⟩]
  | .triggeredBelow => [⟨3, by omega⟩]

/-- Field-order encoding of IsolatedPerpMovementArgs. -/
def specEncodeMovement (a : IsolatedPerpMovementArgs) : List Byte :=
  specEncodeU16 a.spot_market_index ++ specEncodeU16 a.perp_market_index ++
  specEncodeU64 a.amount

/-- Field-order encoding of OrderParams. -/
def specEncodeOrderParams (p : OrderParams) : List Byte :=
  p.order_type.specEncode ++ p.market_type.specEncode ++ p.direction.specEncode ++
  specEncodeU8 p.user_order_id ++ specEncodeU64 p.base_asset_amount ++
  specEncodeU64 p.price ++ specEncodeU16 p.market_index ++
  specEncodeBool p.reduce_only ++ p.post_only.specEncode ++
  specEncodeU8 p.bit_flags ++ specEncodeOpt specEncodeU64 p.max_ts ++
  specEncodeOpt specEncodeU64 p.trigger_price ++ p.trigger_condition.specEncode ++
  specEncodeOpt specEncodeI32 p.oracle_price_offset ++
  specEncodeOpt specEncodeU8 p.auction_duration ++
  specEncodeOpt specEncodeU64 p.auction_start_price ++
  specEncodeOpt specEncodeU64 p.auction_end_price

/-- Payload bytes for a whole InstructionArgs value: the matching known
discriminator followed by the encoding of the fields. -/
def specEncodeInstructionArgs : InstructionArgs → List Byte
  | .depositIntoIsolatedPerpPosition a => DEPOSIT_DISC ++ specEncodeMovement a
  | .withdrawFromIsolatedPerpPosition a => WITHDRAW_DISC ++ specEncodeMovement a
  | .placePerpOrder p => PLACE_PERP_ORDER_DISC ++ specEncodeOrderParams p

/-- Unfolding step for a sequential reader whose head succeeds. -/
theorem andThen_step {r : Reader α} {f : α → Reader β} {x : α} {bs rest : List Byte}
    (h : r bs = some (x, rest)) : andThen r f bs = f x rest := by
  simp [andThen, h]

/-- Reading back an encoded u8. -/
theorem readU8_enc (b : Byte) (rest : List Byte) :
    readU8 (specEncodeU8 b ++ rest) = some (b, rest) := rfl

/-- Reading back an encoded u16. -/
theorem readU16_enc (x : U16) (rest : List Byte) :
    readU16 (specEncodeU16 x ++ rest) = some (x, rest) := by
  have hx := x.isLt
  simp [specEncodeU16, readU16, Fin.ext_iff]
  omega

/-- Reading back an encoded u64. -/
theorem readU64_enc (x : U64) (rest : List Byte) :
    readU64 (specEncodeU64 x ++ rest) = some (x, rest) := by
  have hx := x.isLt
  simp [specEncodeU64, readU64, Fin.ext_iff]
  omega

/-- Reading back an encoded i32 pattern. -/
theorem readI32_enc (x : I32bits) (rest : List Byte) :
    readI32 (specEncodeI32 x ++ rest) = some (x, rest) := by
  have hx := x.isLt
  simp [specEncodeI32, readI32, Fin.ext_iff]
  omega

/-- Reading back an encoded bool. -/
theorem readBool_enc (b : Bool) (rest : List Byte) :
    readBool (specEncodeBool b ++ rest) = some (b, rest) := by
  cases b <;> rfl

/-- Reading back an encoded option, given the payload reader reads back. -/
theorem readOpt_enc {rd : Reader α} {enc : α → List Byte}
    (h : ∀ a rest, rd (enc a ++ rest) = some (a, rest)) (o : Option α) (rest : List Byte) :
    readOpt rd (specEncodeOpt enc o ++ rest) = some (o, rest) := by
  cases o with
  | none => rfl
  | some a => simp [specEncodeOpt, readOpt, h a rest]

/-- Reading back an encoded OrderType. -/
theorem orderTypeRead_enc (x : OrderType) (rest : List Byte) :
    OrderType.read (x.specEncode ++ rest) = some (x, rest) := by
  cases x <;> rfl

/-- Reading back an encoded MarketType. -/
theorem marketTypeRead_enc (x : MarketType) (rest : List Byte) :
    MarketType.read (x.specEncode ++ rest) = some (x, rest) := by
  cases x <;> rfl

/-- Reading back an encoded PositionDirection. -/
theorem positionDirectionRead_enc (x : PositionDirection) (rest : List Byte) :
    PositionDirection.read (x.specEncode ++ rest) = some (x, rest) := by
  cases x <;> rfl

/-- Reading back an encoded PostOnlyParam. -/
theorem postOnlyParamRead_enc (x : PostOnlyParam) (rest : List Byte) :
    PostOnlyParam.read (x.specEncode ++ rest) = some (x, rest) := by
  cases x <;> rfl

/-- Reading back an encoded OrderTriggerCondition. -/
theorem triggerConditionRead_enc (x : OrderTriggerCondition) (rest : List Byte) :
    OrderTriggerCondition.read (x.specEncode ++ rest) = some (x, rest) := by
  cases x <;> rfl

/-- Reading back encoded IsolatedPerpMovementArgs. -/
theorem movementRead_enc (a : IsolatedPerpMovementArgs) (rest : List Byte) :
    IsolatedPerpMovementArgs.read (specEncodeMovement a ++ rest) = some (a, rest) := by
  obtain ⟨s, p, am⟩ := a
  simp only [specEncodeMovement, List.append_assoc]
  rw [IsolatedPerpMovementArgs.read,
      andThen_step (readU16_enc s _),
      andThen_step (readU16_enc p _),
      andThen_step (readU64_enc am _)]
  rfl

/-- Reading back encoded OrderParams. -/
theorem orderParamsRead_enc (p : OrderParams) (rest : List Byte) :
    OrderParams.read (specEncodeOrderParams p ++ rest) = some (p, rest) := by
  obtain ⟨ot, mt, dir, uid, baa, pr, mi, ro, po, bf, mts, tp, tc, opo, ad, asp, aep⟩ := p
  simp only [specEncodeOrderParams, List.append_assoc]
  rw [OrderParams.read,
      andThen_step (orderTypeRead_enc ot _),
      andThen_step (marketTypeRead_enc mt _),
      andThen_step (positionDirectionRead_enc dir _),
      andThen_step (readU8_enc uid _),
      andThen_step (readU64_enc baa _),
      andThen_step (readU64_enc pr _),
      andThen_step (readU16_enc mi _),
      andThen_step (readBool_enc ro _),
      andThen_step (postOnlyParamRead_enc po _),
      andThen_step (readU8_enc bf _),
      andThen_step (readOpt_enc readU64_enc mts _),
      andThen_step (readOpt_enc readU64_enc tp _),
      andThen_step (triggerConditionRead_enc tc _),
      andThen_step (readOpt_enc readI32_enc opo _),
      andThen_step (readOpt_enc readU8_enc ad _),
      andThen_step (readOpt_enc readU64_enc asp _),
      andThen_step (readOpt_enc readU64_enc aep _)]
  rfl

/-- C1: decoding the concatenation of a known discriminator with the
order-sensitive binary encoding of an InstructionArgs value yields
Ok(Some args) with args equal to the original value. -/
theorem C1_decode_encode_roundtrip (args : InstructionArgs) :
    decode_drift_instruction (specEncodeInstructionArgs args) = .ok (some args) := by
  have hdep : DEPOSIT_DISC.length = 8 := by rw [DEPOSIT_DISC_eq]; rfl
  have hwit : WITHDRAW_DISC.length = 8 := by rw [WITHDRAW_DISC_eq]; rfl
  have hpl : PLACE_PERP_ORDER_DISC.length = 8 := by rw [PLACE_PERP_ORDER_DISC_eq]; rfl
  have hwd : WITHDRAW_DISC ≠ DEPOSIT_DISC := by
    rw [WITHDRAW_DISC_eq, DEPOSIT_DISC_eq]; decide
  have hpd : PLACE_PERP_ORDER_DISC ≠ DEPOSIT_DISC := by
    rw [PLACE_PERP_ORDER_DISC_eq, DEPOSIT_DISC_eq]; decide
  have hpw : PLACE_PERP_ORDER_DISC ≠ WITHDRAW_DISC := by
    rw [PLACE_PERP_ORDER_DISC_eq, WITHDRAW_DISC_eq]; decide
  cases args with
  | depositIntoIsolatedPerpPosition a =>
      have htake : (DEPOSIT_DISC ++ specEncodeMovement a).take 8 = DEPOSIT_DISC := by
        rw [← hdep]; exact List.take_left ..
      have hdrop : (DEPOSIT_DISC ++ specEncodeMovement a).drop 8 = specEncodeMovement a := by
        rw [← hdep]; exact List.drop_left ..
      have hlen : ¬ (DEPOSIT_DISC ++ specEncodeMovement a).length < 8 := by
        rw [List.length_append, hdep]; omega
      have hread := movementRead_enc a []
      rw [List.append_nil] at hread
      simp [specEncodeInstructionArgs, decode_drift_instruction, hlen, htake, hdrop,
            tryFromSlice, hread]
      omega
  | withdrawFromIsolatedPerpPosition a =>
      have htake : (WITHDRAW_DISC ++ specEncodeMovement a).take 8 = WITHDRAW_DISC := by
        rw [← hwit]; exact List.take_left ..
      have hdrop : (WITHDRAW_DISC ++ specEncodeMovement a).drop 8 = specEncodeMovement a := by
        rw [← hwit]; exact List.drop_left ..
      have hlen : ¬ (WITHDRAW_DISC ++ specEncodeMovement a).length < 8 := by
        rw [List.length_append, hwit]; omega
      have hread := movementRead_enc a []
      rw [List.append_nil] at hread
      simp [specEncodeInstructionArgs, decode_drift_instruction, hlen, htake, hdrop, hwd,
            tryFromSlice, hread]
      omega
  | placePerpOrder p =>
      have htake : (PLACE_PERP_ORDER_DISC ++ specEncodeOrderParams p).take 8 =
          PLACE_PERP_ORDER_DISC := by
        rw [← hpl]; exact List.take_left ..
      have hdrop : (PLACE_PERP_ORDER_DISC ++ specEncodeOrderParams p).drop 8 =
          specEncodeOrderParams p := by
        rw [← hpl]; exact List.drop_left ..
      have hlen : ¬ (PLACE_PERP_ORDER_DISC ++ specEncodeOrderParams p).length < 8 := by
        rw [List.length_append, hpl]; omega
      have hread := orderParamsRead_enc p []
      rw [List.append_nil] at hread
      simp [specEncodeInstructionArgs, decode_drift_instruction, hlen, htake, hdrop, hpd, hpw,
            tryFromSlice, hread]
      omega

/-- C2: a payload shorter than 8 bytes fails with the short-payload decode
error, and a payload of at least 8 bytes whose 8-byte prefix matches none
of the three precomputed discriminators decodes to Ok(None). -/
theorem C2_short_and_unknown (data : List Byte) :
    (data.length < 8 → decode_drift_instruction data = .error .shortPayload) ∧
    (8 ≤ data.length → data.take 8 ≠ DEPOSIT_DISC → data.take 8 ≠ WITHDRAW_DISC →
      data.take 8 ≠ PLACE_PERP_ORDER_DISC → decode_drift_instruction data = .ok none) := by
  constructor
  · intro h
    simp [decode_drift_instruction, h]
  · intro hlen h1 h2 h3
    have hnl : ¬ data.length < 8 := by omega
    simp [decode_drift_instruction, hnl, h1, h2, h3]

/-- Witness for C2 at concrete payloads: three zero bytes are rejected as
short, and eight zero bytes match no discriminator and decode to Ok(None). -/
theorem C2_short_and_unknown_witness :
    decode_drift_instruction (List.replicate 3 (0 : Byte)) = .error .shortPayload ∧
    decode_drift_instruction (List.replicate 8 (0 : Byte)) = .ok none :=
  ⟨(C2_short_and_unknown (List.replicate 3 (0 : Byte))).1 (by decide),
   (C2_short_and_unknown (List.replicate 8 (0 : Byte))).2 (by decide)
     (by rw [DEPOSIT_DISC_eq]; decide) (by rw [WITHDRAW_DISC_eq]; decide)
     (by rw [PLACE_PERP_ORDER_DISC_eq]; decide)⟩

/-!
Worker IPC bridge (ipc.rs). JSON payloads are opaque to the bridge and
modelled as Nat tokens; the pending table (a DashMap, so a map with
unique keys) is modelled as an association list with a no-duplicate-keys
hypothesis, each entry holding an opaque one-shot sender token.
-/

/-- Opaque JSON value carried through the bridge. -/
abbrev JValue := Nat

/-- IpcError from ipc.rs. -/
inductive IpcError where
  | timeout
  | workerCrashed
  | protocol (msg : String)
  | remote (msg : String)
  | spawn (msg : String)
  | write (msg : String)
deriving DecidableEq

/-- The pending-call table: correlation id mapped to a one-shot sender token. -/
abbrev Pending := List (String × Nat)

/-- DashMap remove: take out the entry with the given key, if present. -/
def removeEntry : Pending → String → Option Nat × Pending
  | [], _ => (none, [])
  | (k, v) :: rest, id =>
      if k = id then (some v, rest)
      else
        let r := removeEntry rest id
        (r.1, (k, v) :: r.2)

/-- One parsed worker response line, as deserialized in ipc.rs. -/
structure WorkerResponse where
  id : String
  ok : Bool
  result : Option JValue
  error : Option String
deriving DecidableEq

/-- The payload a matching pending entry is completed with: ok with result,
protocol error when ok has no result, remote error otherwise. -/
def responsePayload (r : WorkerResponse) : Except IpcError JValue :=
  if r.ok then
    match r.result with
    | some v => .ok v
    | none => .error (.protocol "worker returned ok without result")
  else .error (.remote (r.error.getD "worker error without message"))

/-- dispatch_response from ipc.rs: remove the pending entry for the
response id and complete it; a response with no pending entry is logged
and dropped (second component none, no completion). -/
def dispatch_response (p : Pending) (r : WorkerResponse) :
    Pending × Option (Nat × Except IpcError JValue) :=
  match removeEntry p r.id with
  | (some sender, p') => (p', some (sender, responsePayload r))
  | (none, p') => (p', none)

/-- The timeout arm of call_internal: on expiry the caller removes its own
pending entry and fails with Timeout. -/
def timeout_cleanup (p : Pending) (id : String) : Pending × IpcError :=
  ((removeEntry p id).2, .timeout)

/-- Sweep of fail_all_pending: walk the collected keys, removing each and
sending the failure to every entry actually removed. -/
def failAllLoop : Pending → List String → Pending × List String
  | p, [] => (p, [])
  | p, k :: ks =>
      match removeEntry p k with
      | (some _, p') =>
          let r := failAllLoop p' ks
          (r.1, k :: r.2)
      | (none, p') => failAllLoop p' ks

/-- fail_all_pending from ipc.rs: snapshot the keys, then remove and fail
each pending entry; returns the table afterwards and the ids completed. -/
def fail_all_pending (p : Pending) : Pending × List String :=
  failAllLoop p (p.map Prod.fst)

/-- The three completion paths that can reach a pending entry. -/
inductive BridgeAction where
  | dispatch (r : WorkerResponse)
  | timeoutExpire (id : String)
  | failAll

/-- Removal-then-completion of a single entry: the shared shape of the
response path and of the timeout path, emitting the id completed. -/
def removeComplete (p : Pending) (x : String) : Pending × List String :=
  match removeEntry p x with
  | (some _, p') => (p', [x])
  | (none, p') => (p', [])

/-- One completion path applied to the pending table, returning the new
table and the ids of the entries completed by this step. Every path
removes an entry from the table before completing it. -/
def bridgeStep (p : Pending) : BridgeAction → Pending × List String
  | .dispatch r => removeComplete p r.id
  | .timeoutExpire id => removeComplete p id
  | .failAll => fail_all_pending p

/-- Run a sequence of completion paths, collecting all completed ids. -/
def runBridge : Pending → List BridgeAction → Pending × List String
  | p, [] => (p, [])
  | p, a :: as =>
      let r := bridgeStep p a
      let rs := runBridge r.1 as
      (rs.1, r.2 ++ rs.2)

/-- Keys of the pending table. -/
def pendingKeys (p : Pending) : List String := p.map Prod.fst

/-- Removing an entry removes exactly the first occurrence of the key. -/
theorem removeEntry_map_fst (p : Pending) (id : String) :
    pendingKeys (removeEntry p id).2 = (pendingKeys p).erase id := by
  induction p with
  | nil => rfl
  | cons hd tl ih =>
      obtain ⟨k, v⟩ := hd
      by_cases h : k = id
      · subst h
        simp [removeEntry, pendingKeys, List.erase_cons]
      · simp [removeEntry, pendingKeys, List.erase_cons, h, ih]
        simpa [pendingKeys] using ih

/-- The removed value is present exactly when the key is present. -/
theorem removeEntry_found (p : Pending) (id : String) :
    (removeEntry p id).1.isSome ↔ id ∈ pendingKeys p := by
  induction p with
  | nil => simp [removeEntry, pendingKeys]
  | cons hd tl ih =>
      obtain ⟨k, v⟩ := hd
      by_cases h : k = id
      · subst h
        simp [removeEntry, pendingKeys]
      · simp [removeEntry, pendingKeys, h, Ne.symm h]
        simpa [pendingKeys] using ih

/-- Removing an absent key leaves the table unchanged. -/
theorem removeEntry_absent (p : Pending) (id : String) (h : id ∉ pendingKeys p) :
    removeEntry p id = (none, p) := by
  induction p with
  | nil => rfl
  | cons hd tl ih =>
      obtain ⟨k, v⟩ := hd
      simp [pendingKeys] at h
      push_neg at h
      have hk : k ≠ id := fun hkid => h.1 hkid.symm
      have := ih (by simpa [pendingKeys] using h.2)
      simp [removeEntry, hk, this]

/-- C4: a call that times out completes with the Timeout error and removes
its own pending entry; a worker response arriving afterwards for that
correlation id finds no pending entry and is dropped, completing nothing
and producing no error. -/
theorem C4_timeout_then_late_response (p : Pending) (id : String) (resp : WorkerResponse)
    (hN : (pendingKeys p).Nodup) (hid : resp.id = id) :
    (timeout_cleanup p id).2 = .timeout ∧
    id ∉ pendingKeys (timeout_cleanup p id).1 ∧
    dispatch_response (timeout_cleanup p id).1 resp = ((timeout_cleanup p id).1, none) := by
  have hkeys : pendingKeys (timeout_cleanup p id).1 = (pendingKeys p).erase id :=
    removeEntry_map_fst p id
  have hnm : id ∉ pendingKeys (timeout_cleanup p id).1 := by
    rw [hkeys]
    exact fun hmem => ((hN.mem_erase_iff).mp hmem).1 rfl
  refine ⟨rfl, hnm, ?_⟩
  have habs := removeEntry_absent _ id hnm
  rw [dispatch_response, hid, habs]

/-- Witness for C4 on a concrete two-entry table and a late response. -/
theorem C4_timeout_then_late_response_witness :
    (timeout_cleanup [("a", 0), ("b", 1)] "a").2 = .timeout ∧
    "a" ∉ pendingKeys (timeout_cleanup [("a", 0), ("b", 1)] "a").1 ∧
    dispatch_response (timeout_cleanup [("a", 0), ("b", 1)] "a").1
        ⟨"a", true, some 7, none⟩ =
      ((timeout_cleanup [("a", 0), ("b", 1)] "a").1, none) :=
  C4_timeout_then_late_response [("a", 0), ("b", 1)] "a" ⟨"a", true, some 7, none⟩
    (by decide) rfl

/-- Emptying sweep: on a table with unique keys, fail_all_pending clears
the table and completes every entry exactly once. -/
theorem failAll_sweep : ∀ p : Pending, (pendingKeys p).Nodup →
    fail_all_pending p = ([], pendingKeys p) := by
  intro p
  induction p with
  | nil => intro _; rfl
  | cons hd tl ih =>
      obtain ⟨k, v⟩ := hd
      intro hN
      have hcons : pendingKeys ((k, v) :: tl) = k :: pendingKeys tl := rfl
      have hsplit := List.nodup_cons.mp (by rw [hcons] at hN; exact hN)
      have hhead : removeEntry ((k, v) :: tl) k = (some v, tl) := by simp [removeEntry]
      have hihtl := ih hsplit.2
      simp only [fail_all_pending] at hihtl ⊢
      simp [pendingKeys, failAllLoop, hhead, hihtl] at hihtl ⊢

/-- One removal-then-completion step preserves key uniqueness, and the
completions it emits plus the keys it keeps never exceed the keys it
started with. -/
theorem removeComplete_count (p : Pending) (x : String) (hN : (pendingKeys p).Nodup) :
    (pendingKeys (removeComplete p x).1).Nodup ∧
    ∀ cid, ((removeComplete p x).2.count cid + (pendingKeys (removeComplete p x).1).count cid ≤
      (pendingKeys p).count cid) := by
  rcases hrm : removeEntry p x with ⟨found, p'⟩
  have hp' : pendingKeys p' = (pendingKeys p).erase x := by
    have h := removeEntry_map_fst p x
    rw [hrm] at h
    exact h
  have hNe : (pendingKeys p').Nodup := hp' ▸ hN.erase x
  cases found with
  | some sender =>
      have hmem : x ∈ pendingKeys p := by
        have h := (removeEntry_found p x).mp
        rw [hrm] at h
        exact h (by simp)
      have hcnt1 : (pendingKeys p).count x = 1 :=
        Nat.le_antisymm (List.nodup_iff_count_le_one.mp hN x)
          (List.count_pos_iff.mpr hmem)
      refine ⟨by simp [removeComplete, hrm, hNe], fun cid => ?_⟩
      by_cases hc : cid = x
      · subst hc
        simp [removeComplete, hrm, hp', List.count_erase_self, List.count_cons]
        all_goals omega
      · simp [removeComplete, hrm, hp', List.count_erase_of_ne hc, List.count_cons, hc]
  | none =>
      refine ⟨by simp [removeComplete, hrm, hNe], fun cid => ?_⟩
      by_cases hc : cid = x
      · subst hc
        simp [removeComplete, hrm, hp', List.count_erase_self]
      · simp [removeComplete, hrm, hp', List.count_erase_of_ne hc]

/-- Keys after a step, completions of a step, and the key multiset only
ever shrink: one step of any completion path. -/
theorem bridgeStep_count (p : Pending) (a : BridgeAction) (hN : (pendingKeys p).Nodup) :
    (pendingKeys (bridgeStep p a).1).Nodup ∧
    ∀ cid, ((bridgeStep p a).2.count cid + (pendingKeys (bridgeStep p a).1).count cid ≤
      (pendingKeys p).count cid) := by
  cases a with
  | dispatch r => exact removeComplete_count p r.id hN
  | timeoutExpire tid => exact removeComplete_count p tid hN
  | failAll =>
      have hsweep := failAll_sweep p hN
      constructor
      · show (pendingKeys (fail_all_pending p).1).Nodup
        rw [hsweep]
        simp [pendingKeys]
      · intro cid
        show (fail_all_pending p).2.count cid + (pendingKeys (fail_all_pending p).1).count cid ≤ _
        rw [hsweep]
        simp [pendingKeys]

/-- C5: over any sequence of completion paths starting from a pending
table with unique correlation ids, each entry is completed at most once:
every path removes the entry before sending, so a removed entry can never
be completed again. -/
theorem C5_at_most_one_completion (p : Pending) (acts : List BridgeAction) (id : String)
    (hN : (pendingKeys p).Nodup) :
    ((runBridge p acts).2).count id ≤ 1 := by
  suffices h : ∀ (acts : List BridgeAction) (p : Pending), (pendingKeys p).Nodup →
      (pendingKeys (runBridge p acts).1).Nodup ∧
      ∀ id, ((runBridge p acts).2).count id + (pendingKeys (runBridge p acts).1).count id ≤
        (pendingKeys p).count id by
    have hone := (h acts p hN).2 id
    have hle := List.nodup_iff_count_le_one.mp hN id
    omega
  intro acts
  induction acts with
  | nil =>
      intro p hN
      exact ⟨hN, fun id => by simp [runBridge]⟩
  | cons a as ih =>
      intro p hN
      have hstep := bridgeStep_count p a hN
      have hrest := ih (bridgeStep p a).1 hstep.1
      refine ⟨hrest.1, fun id => ?_⟩
      have h1 := hstep.2 id
      have h2 := hrest.2 id
      simp only [runBridge, List.count_append]
      omega

/-- Witness for C5 on a concrete table and action sequence in which a
response, a timeout and a bulk failure all target the same entry. -/
theorem C5_at_most_one_completion_witness :
    ((runBridge [("a", 0), ("b", 1)]
        [.dispatch ⟨"a", true, some 3, none⟩, .timeoutExpire "a", .failAll]).2).count "a" ≤ 1 :=
  C5_at_most_one_completion [("a", 0), ("b", 1)]
    [.dispatch ⟨"a", true, some 3, none⟩, .timeoutExpire "a", .failAll] "a" (by decide)

/-!
The call layer of the bridge (TsIpc::call in ipc.rs). The outcome of the
i-th call_internal attempt with a given timeout budget, and of the
teardown-then-respawn (handle_worker_failure followed by ensure_worker),
are supplied by an environment; the embedding captures which attempts run,
with which timeout, and whether a respawn happened.
-/

/-- Environment of one logical call: the result of each call_internal
attempt as a function of the attempt index and the timeout budget passed
to it, and the result of a teardown-then-respawn. -/
structure CallAttempts where
  attempt : Nat → Nat → Except IpcError JValue
  respawn : Except IpcError Unit

/-- Observable outcome of TsIpc::call: the returned result, whether the
call was attempted a second time, and whether a teardown-then-respawn ran. -/
structure CallOutcome where
  result : Except IpcError JValue
  retried : Bool
  respawned : Bool

/-- The retry path of TsIpc::call: teardown-then-respawn, then the second
and final attempt with the same timeout budget; a respawn failure
surfaces. -/
def tsIpcRetry (env : CallAttempts) (t : Nat) : CallOutcome :=
  match env.respawn with
  | .error e => ⟨.error e, false, true⟩
  | .ok _ => ⟨env.attempt 1 t, true, true⟩

/-- TsIpc::call from ipc.rs: the first attempt, retried once through the
respawn path exactly when it fails with WorkerCrashed or a stdin Write
failure; every other outcome is returned directly. -/
def tsIpcCallModel (env : CallAttempts) (t : Nat) : CallOutcome :=
  match env.attempt 0 t with
  | .error .workerCrashed => tsIpcRetry env t
  | .error (.write _) => tsIpcRetry env t
  | r => ⟨r, false, false⟩

/-- The errors that trigger the one-shot respawn-and-retry in the match of
TsIpc::call. -/
def retryTrigger : Except IpcError JValue → Bool
  | .error .workerCrashed => true
  | .error (.write _) => true
  | _ => false

/-- Environment whose first attempt times out and whose second attempt
would succeed, with a respawn available. -/
def timeoutFirstEnv : CallAttempts :=
  ⟨fun i _ => if i = 0 then .error .timeout else .ok 0, .ok ()⟩

/-- Counterexample to C3 as stated: a first attempt failing with Timeout
is returned directly — no teardown-then-respawn runs and no second
attempt is made, even though one would have succeeded. -/
theorem C3_claim_counterexample :
    timeoutFirstEnv.attempt 0 5 = .error .timeout ∧
    timeoutFirstEnv.attempt 1 5 = .ok 0 ∧
    timeoutFirstEnv.respawn = .ok () ∧
    (tsIpcCallModel timeoutFirstEnv 5).respawned = false ∧
    (tsIpcCallModel timeoutFirstEnv 5).retried = false ∧
    (tsIpcCallModel timeoutFirstEnv 5).result = .error .timeout :=
  ⟨rfl, rfl, rfl, rfl, rfl, rfl⟩

/-- C3 amended: WorkerCrashed and stdin Write failures of an attempt
trigger teardown-then-respawn and exactly one retry of the same call with
the same timeout budget, whose outcome — even a second such failure — is
returned to the caller (a failed respawn surfaces its own error);
Timeout, Protocol, Remote and Spawn outcomes, like successes, are
returned to the caller immediately with no retry and no respawn. -/
theorem C3_retry_policy (env : CallAttempts) (t : Nat) :
    (retryTrigger (env.attempt 0 t) = true → env.respawn = .ok () →
      tsIpcCallModel env t = ⟨env.attempt 1 t, true, true⟩) ∧
    (retryTrigger (env.attempt 0 t) = true → ∀ e, env.respawn = .error e →
      tsIpcCallModel env t = ⟨.error e, false, true⟩) ∧
    (retryTrigger (env.attempt 0 t) = false →
      tsIpcCallModel env t = ⟨env.attempt 0 t, false, false⟩) ∧
    retryTrigger (.error .workerCrashed) = true ∧
    (∀ m, retryTrigger (.error (.write m)) = true) ∧
    retryTrigger (.error .timeout) = false ∧
    (∀ v, retryTrigger (.ok v) = false) ∧
    (∀ m, retryTrigger (.error (.protocol m)) = false ∧
      retryTrigger (.error (.remote m)) = false ∧
      retryTrigger (.error (.spawn m)) = false) := by
  refine ⟨?_, ?_, ?_, rfl, fun m => rfl, rfl, fun v => rfl, fun m => ⟨rfl, rfl, rfl⟩⟩
  · intro htr hok
    cases hA : env.attempt 0 t with
    | ok v => rw [hA] at htr; exact absurd htr (by simp [retryTrigger])
    | error e =>
        cases e <;> rw [hA] at htr <;>
          simp [retryTrigger] at htr <;>
          simp [tsIpcCallModel, tsIpcRetry, hA, hok]
  · intro htr e herr
    cases hA : env.attempt 0 t with
    | ok v => rw [hA] at htr; exact absurd htr (by simp [retryTrigger])
    | error e0 =>
        cases e0 <;> rw [hA] at htr <;>
          simp [retryTrigger] at htr <;>
          simp [tsIpcCallModel, tsIpcRetry, hA, herr]
  · intro htr
    cases hA : env.attempt 0 t with
    | ok v => simp [tsIpcCallModel, hA]
    | error e0 =>
        cases e0 <;> rw [hA] at htr <;>
          simp [retryTrigger] at htr <;>
          simp [tsIpcCallModel, hA]

/-- Environment whose first attempt observes a worker crash and whose
retry succeeds. -/
def crashFirstEnv : CallAttempts :=
  ⟨fun i _ => if i = 0 then .error .workerCrashed else .ok 42, .ok ()⟩

/-- Witness for C3 on a concrete environment: a first-attempt crash leads
to respawn plus one retry, whose success is returned. -/
theorem C3_retry_policy_witness :
    tsIpcCallModel crashFirstEnv 7 = ⟨.ok 42, true, true⟩ :=
  (C3_retry_policy crashFirstEnv 7).1 rfl rfl

/-!
Token-mint resolution (decoder.rs, build_token_mint_lookup). The HashMap
with entry-or-insert semantics is modelled as an association list with
insert-only-if-absent, which refines a map with unique keys.
-/

/-- One entry of the pre/post token-balance lists of the transaction meta. -/
structure TokenBalance where
  accountIndex : Nat
  mint : String
deriving DecidableEq

/-- The transaction meta parts consumed by decode_signature: loaded
addresses (already parsed to key strings) and the optional token-balance
lists (OptionSerializer collapsed to Option). -/
structure TxMeta where
  loadedWritable : List String
  loadedReadonly : List String
  preTokenBalances : Option (List TokenBalance)
  postTokenBalances : Option (List TokenBalance)

/-- Account-index-to-mint map. -/
abbrev MintMap := List (Nat × String)

/-- HashMap get. -/
def mintMapGet (m : MintMap) (k : Nat) : Option String :=
  (m.find? (fun e => e.1 == k)).map (fun e => e.2)

/-- HashMap entry-or-insert-with: insert only when the key is absent. -/
def insertIfAbsent (m : MintMap) (k : Nat) (v : String) : MintMap :=
  match mintMapGet m k with
  | some _ => m
  | none => m ++ [(k, v)]

/-- The ingest closure of build_token_mint_lookup over one balance list. -/
def ingestBalances (m : MintMap) (bs : List TokenBalance) : MintMap :=
  bs.foldl (fun acc b => insertIfAbsent acc b.accountIndex b.mint) m

/-- build_token_mint_lookup from decoder.rs: ingest pre-token balances,
then post-token balances, into an entry-or-insert map. -/
def build_token_mint_lookup (meta : TxMeta) : MintMap :=
  ingestBalances (ingestBalances [] (meta.preTokenBalances.getD []))
    (meta.postTokenBalances.getD [])

/-- Inserting if absent leaves present keys untouched and fills only the
inserted key. -/
theorem mintMapGet_insertIfAbsent (m : MintMap) (kb : Nat) (v : String) (k : Nat) :
    mintMapGet (insertIfAbsent m kb v) k =
      match mintMapGet m k with
      | some w => some w
      | none => if kb = k then some v else none := by
  rw [insertIfAbsent]
  cases hkb : mintMapGet m kb with
  | some w =>
      cases hk : mintMapGet m k with
      | some u => rfl
      | none =>
          by_cases he : kb = k
          · subst he
            rw [hkb] at hk
            exact absurd hk (by simp)
          · simp [he]
  | none =>
      rw [mintMapGet, List.find?_append]
      cases hk : mintMapGet m k with
      | some u =>
          rw [mintMapGet] at hk
          rcases hfind : m.find? (fun e => e.1 == k) with _ | e
          · rw [hfind] at hk
            exact absurd hk (by simp)
          · rw [hfind] at hk
            simp at hk
            simp [hfind, hk]
      | none =>
          rw [mintMapGet] at hk
          rcases hfind : m.find? (fun e => e.1 == k) with _ | e
          · by_cases he : kb = k
            · subst he
              simp [hfind, List.find?]
            · have hbe : (kb == k) = false := by simpa using he
              simp [hfind, List.find?, hbe, he]
          · rw [hfind] at hk
            exact absurd hk (by simp)

/-- Ingesting a balance list resolves a key to its existing binding, or
else to the first matching entry of the list. -/
theorem mintMapGet_ingest (bs : List TokenBalance) (m : MintMap) (k : Nat) :
    mintMapGet (ingestBalances m bs) k =
      match mintMapGet m k with
      | some w => some w
      | none => (bs.find? (fun b => b.accountIndex == k)).map (fun b => b.mint) := by
  induction bs generalizing m with
  | nil =>
      cases hk : mintMapGet m k <;> simp [ingestBalances, hk]
  | cons b bs ih =>
      have hstep : ingestBalances m (b :: bs) =
          ingestBalances (insertIfAbsent m b.accountIndex b.mint) bs := rfl
      rw [hstep, ih, mintMapGet_insertIfAbsent]
      cases hk : mintMapGet m k with
      | some w =>
          by_cases hb : b.accountIndex = k <;> simp [List.find?_cons, hb]
      | none =>
          by_cases hb : b.accountIndex = k <;> simp [List.find?_cons, hb]

/-- C8: the token-mint lookup maps an account index to the mint of its
first occurrence across the pre-token balances followed by the post-token
balances; later occurrences never overwrite earlier ones. -/
theorem C8_first_occurrence_wins (meta : TxMeta) (k : Nat) :
    mintMapGet (build_token_mint_lookup meta) k =
      (((meta.preTokenBalances.getD []) ++ (meta.postTokenBalances.getD [])).find?
        (fun b => b.accountIndex == k)).map (fun b => b.mint) := by
  rw [build_token_mint_lookup, mintMapGet_ingest, mintMapGet_ingest, List.find?_append]
  have hempty : mintMapGet [] k = none := rfl
  rw [hempty]
  cases hpre : (meta.preTokenBalances.getD []).find? (fun b => b.accountIndex == k) with
  | none => simp
  | some b => simp

/-!
Transaction executor (executor.rs). The external collaborators — base64
decoding, bincode deserialization of a versioned transaction, ed25519
signing, and the RPC send-and-confirm call — are supplied as an
environment of fallible oracles; the embedding captures the order of the
steps of TxExecutor::execute, the errors it returns, whether the network
was ever reached, and the unguarded first-signature index.
-/

/-- Opaque signature value. -/
abbrev Sig := Nat

/-- Opaque transaction message. -/
abbrev MsgOpaque := Nat

/-- Versioned transaction: signature slots plus an opaque message. -/
structure VersionedTransaction where
  signatures : List Sig
  message : MsgOpaque
deriving DecidableEq

/-- External collaborators of TxExecutor::execute. -/
structure ExecEnv where
  b64decode : String → Except String (List Byte)
  deserialize : List Byte → Except String VersionedTransaction
  serializeMessage : MsgOpaque → List Byte
  trySignMessage : List Byte → Except String Sig
  sendAndConfirm : VersionedTransaction → Except String Unit

/-- ExecutorError from executor.rs. -/
inductive ExecutorError where
  | missingKey
  | invalidKey (msg : String)
  | decode (msg : String)
  | rpc (msg : String)
deriving DecidableEq

/-- Outcome of one execute call, with an explicit case for the
out-of-bounds panic of the unguarded tx.signatures index. -/
inductive ExecOutcome where
  | ok (sig : Sig)
  | err (e : ExecutorError)
  | panicked
deriving DecidableEq

/-- The if-let over signatures.first_mut: install the fresh signature in
slot zero when a slot exists, otherwise leave the transaction unchanged. -/
def installFirstSignature (tx : VersionedTransaction) (s : Sig) : VersionedTransaction :=
  { tx with
    signatures :=
      match tx.signatures with
      | [] => []
      | _ :: rest => s :: rest }

/-- TxExecutor::execute from executor.rs: base64 decode, bincode
deserialize, sign the serialized message, install the signature in slot
zero, read tx.signatures at index zero unguarded, then send and confirm.
The second component records whether the network call was made. -/
def execute (env : ExecEnv) (txBase64 : String) : ExecOutcome × Bool :=
  match env.b64decode txBase64 with
  | .error e => (.err (.decode e), false)
  | .ok bytes =>
    match env.deserialize bytes with
    | .error e => (.err (.decode e), false)
    | .ok tx =>
      match env.trySignMessage (env.serializeMessage tx.message) with
      | .error e => (.err (.decode ("signing error: " ++ e)), false)
      | .ok signature =>
        let txSigned := installFirstSignature tx signature
        match txSigned.signatures with
        | [] => (.panicked, false)
        | s0 :: _ =>
          match env.sendAndConfirm txSigned with
          | .ok _ => (.ok s0, true)
          | .error m => (.err (.rpc m), true)

/-- C9: a payload that fails base64 decoding or bincode deserialization
returns the Decode error without any network call; on a well-formed
payload a network or preflight failure is returned as the Rpc error
carrying the underlying message. -/
theorem C9_decode_before_network (env : ExecEnv) (txBase64 : String) :
    (∀ e, env.b64decode txBase64 = .error e →
      execute env txBase64 = (.err (.decode e), false)) ∧
    (∀ bytes e, env.b64decode txBase64 = .ok bytes → env.deserialize bytes = .error e →
      execute env txBase64 = (.err (.decode e), false)) ∧
    (∀ bytes tx s m, env.b64decode txBase64 = .ok bytes → env.deserialize bytes = .ok tx →
      env.trySignMessage (env.serializeMessage tx.message) = .ok s →
      tx.signatures ≠ [] →
      env.sendAndConfirm (installFirstSignature tx s) = .error m →
      execute env txBase64 = (.err (.rpc m), true)) := by
  refine ⟨?_, ?_, ?_⟩
  · intro e he
    simp [execute, he]
  · intro bytes e hb hd
    simp [execute, hb, hd]
  · intro bytes tx s m hb hd hs hne hsend
    rcases htx : tx.signatures with _ | ⟨s0, rest⟩
    · exact absurd htx hne
    · have hinst : (installFirstSignature tx s).signatures = s :: rest := by
        simp [installFirstSignature, htx]
      simp [execute, hb, hd, hs, hinst, hsend]

/-- Environment whose base64 step rejects the payload. -/
def badB64Env : ExecEnv :=
  ⟨fun _ => .error "invalid base64", fun _ => .error "unused", fun _ => [],
   fun _ => .error "unused", fun _ => .ok ()⟩

/-- Witness for C9: a rejected payload yields the Decode error and the
network flag stays false. -/
theorem C9_decode_before_network_witness :
    execute badB64Env "%%" = (.err (.decode "invalid base64"), false) :=
  (C9_decode_before_network badB64Env "%%").1 "invalid base64" rfl

/-- C10: when the decoded transaction has at least one signature slot,
execute cannot reach the panic of the unguarded index and, on a
successful send, returns exactly the signature installed in slot zero;
when the signature vector is empty, the unguarded tx.signatures index is
reached and the call panics instead of returning an ExecutorError. -/
theorem C10_signature_slot_zero (env : ExecEnv) (txBase64 : String)
    (bytes : List Byte) (tx : VersionedTransaction) (s : Sig)
    (hb : env.b64decode txBase64 = .ok bytes)
    (hd : env.deserialize bytes = .ok tx)
    (hs : env.trySignMessage (env.serializeMessage tx.message) = .ok s) :
    (tx.signatures ≠ [] →
      (execute env txBase64).1 ≠ .panicked ∧
      (∀ u, env.sendAndConfirm (installFirstSignature tx s) = .ok u →
        execute env txBase64 = (.ok s, true))) ∧
    (tx.signatures = [] → execute env txBase64 = (.panicked, false)) := by
  constructor
  · intro hne
    rcases htx : tx.signatures with _ | ⟨s0, rest⟩
    · exact absurd htx hne
    · have hinst : (installFirstSignature tx s).signatures = s :: rest := by
        simp [installFirstSignature, htx]
      constructor
      · cases hsend : env.sendAndConfirm (installFirstSignature tx s) <;>
          simp [execute, hb, hd, hs, hinst, hsend]
      · intro u hsend
        simp [execute, hb, hd, hs, hinst, hsend]
  · intro hnil
    have hinst : (installFirstSignature tx s).signatures = [] := by
      simp [installFirstSignature, hnil]
    simp [execute, hb, hd, hs, hinst]

/-- Environment delivering a one-slot transaction whose send succeeds. -/
def oneSlotEnv : ExecEnv :=
  ⟨fun _ => .ok [], fun _ => .ok ⟨[0], 9⟩, fun _ => [], fun _ => .ok 5, fun _ => .ok ()⟩

/-- Witness for C10: with one signature slot the call does not panic and
returns the freshly installed signature. -/
theorem C10_signature_slot_zero_witness :
    (execute oneSlotEnv "t").1 ≠ .panicked ∧ execute oneSlotEnv "t" = (.ok 5, true) :=
  ⟨((C10_signature_slot_zero oneSlotEnv "t" [] ⟨[0], 9⟩ 5 rfl rfl rfl).1
      (by decide)).1,
   ((C10_signature_slot_zero oneSlotEnv "t" [] ⟨[0], 9⟩ 5 rfl rfl rfl).1
      (by decide)).2 () rfl⟩

/-!
decode_signature (decoder.rs). The transaction has already been fetched
and binary-decoded by the RPC collaborator; the embedding covers the
instruction loop: account-key table construction, per-instruction
program filtering, decode with local error recovery, account dumps,
action records, and the final SignatureDump.  Account keys are modelled
as already-parsed strings.
-/

/-- Compiled instruction: program id index, account indices, data bytes. -/
structure CompiledIx where
  programIdIndex : Nat
  accounts : List Nat
  data : List Byte
deriving DecidableEq

/-- The message parts consumed by the loop: static account keys, compiled
instructions, and the signer/writable flags by global account index. -/
structure TxMessage where
  staticKeys : List String
  instructions : List CompiledIx
  isSigner : Nat → Bool
  isWritable : Nat → Bool

/-- collect_account_keys from decoder.rs: static keys, then loaded
writable, then loaded readonly addresses. -/
def collect_account_keys (msg : TxMessage) (meta : TxMeta) : List String :=
  msg.staticKeys ++ meta.loadedWritable ++ meta.loadedReadonly

/-- DriftIxKind from decoder.rs. -/
inductive DriftIxKind where
  | depositIntoIsolatedPerpPosition
  | withdrawFromIsolatedPerpPosition
  | placePerpOrder
deriving DecidableEq

/-- The kind tag of a decoded InstructionArgs value. -/
def InstructionArgs.kind : InstructionArgs → DriftIxKind
  | .depositIntoIsolatedPerpPosition _ => .depositIntoIsolatedPerpPosition
  | .withdrawFromIsolatedPerpPosition _ => .withdrawFromIsolatedPerpPosition
  | .placePerpOrder _ => .placePerpOrder

/-- Display rendering of DriftIxKind. -/
def DriftIxKind.toLabel : DriftIxKind → String
  | .depositIntoIsolatedPerpPosition => "depositIntoIsolatedPerpPosition"
  | .withdrawFromIsolatedPerpPosition => "withdrawFromIsolatedPerpPosition"
  | .placePerpOrder => "placePerpOrder"

/-- from_str of DriftIxKind, with the error collapsed to none. -/
def DriftIxKind.from_str (label : String) : Option DriftIxKind :=
  if label = "depositIntoIsolatedPerpPosition" then some .depositIntoIsolatedPerpPosition
  else if label = "withdrawFromIsolatedPerpPosition" then some .withdrawFromIsolatedPerpPosition
  else if label = "placePerpOrder" then some .placePerpOrder
  else none

/-- Positional account-role names per instruction kind. -/
def DriftIxKind.account_names : DriftIxKind → List String
  | .depositIntoIsolatedPerpPosition =>
      ["state", "user", "userStats", "authority", "spotMarketVault", "userTokenAccount",
       "tokenProgram"]
  | .withdrawFromIsolatedPerpPosition =>
      ["state", "user", "userStats", "authority", "spotMarketVault", "driftSigner",
       "userTokenAccount", "tokenProgram"]
  | .placePerpOrder => ["state", "user", "authority"]

/-- Display rendering of PositionDirection. -/
def PositionDirection.asStr : PositionDirection → String
  | .long => "Long"
  | .short => "Short"

/-- Role list of collect_account_dump: parse the kind label back and take
its name list, defaulting to no roles. -/
def rolesFor (kindLabel : Option String) : List String :=
  ((kindLabel.bind DriftIxKind.from_str).map DriftIxKind.account_names).getD []

/-- One dumped account of an instruction. -/
structure AccountDump where
  position : Nat
  message_index : Nat
  pubkey : String
  is_signer : Bool
  is_writable : Bool
  role : Option String
deriving DecidableEq

/-- Lower-case hex digit. -/
def hexDigit (n : Nat) : Char :=
  if n < 10 then Char.ofNat (48 + n) else Char.ofNat (87 + n)

/-- Two hex digits of one byte. -/
def byteHex (b : Byte) : List Char := [hexDigit (b.val / 16), hexDigit (b.val % 16)]

/-- format_discriminator from decoder.rs: colon-separated hex of the
first eight data bytes. -/
def format_discriminator (data : List Byte) : String :=
  String.mk (List.intercalate [Char.ofNat 58] ((data.take 8).map byteHex))

/-- Character of one 6-bit base64 group, standard alphabet. -/
def b64Char (n : Nat) : Char :=
  if n < 26 then Char.ofNat (65 + n)
  else if n < 52 then Char.ofNat (97 + (n - 26))
  else if n < 62 then Char.ofNat (48 + (n - 52))
  else if n = 62 then Char.ofNat 43
  else Char.ofNat 47

/-- Standard base64 encoding with padding, three input bytes per chunk. -/
def base64Chunks : List Byte → List Char
  | [] => []
  | [a] => [b64Char (a.val / 4), b64Char (a.val % 4 * 16), Char.ofNat 61, Char.ofNat 61]
  | [a, b] => [b64Char (a.val / 4), b64Char (a.val % 4 * 16 + b.val / 16),
               b64Char (b.val % 16 * 4), Char.ofNat 61]
  | a :: b :: c :: rest =>
      b64Char (a.val / 4) :: b64Char (a.val % 4 * 16 + b.val / 16) ::
      b64Char (b.val % 16 * 4 + c.val / 64) :: b64Char (c.val % 64) :: base64Chunks rest

/-- BASE64_STANDARD.encode of the raw instruction data. -/
def base64Encode (bs : List Byte) : String := String.mk (base64Chunks bs)

/-- The action record persisted per decoded instruction. The leverage
field is f64-typed in the source and always absent. -/
structure ActionRecord where
  signature : String
  slot : Nat
  block_time : Option Int
  instruction_index : Nat
  action_type : String
  market_index : Option U16
  perp_market_index : Option U16
  spot_market_index : Option U16
  direction : Option String
  base_asset_amount : Option U64
  price : Option U64
  reduce_only : Option Bool
  leverage : Option Float
  amount : Option U64
  token_account : Option String
  token_mint : Option String
  token_amount : Option U64

/-- One dumped instruction. The args field keeps the decoded value the
source renders to JSON. -/
structure InstructionDump where
  index : Nat
  discriminator : String
  raw_data_b64 : String
  data_len : Nat
  program_id : String
  kind : Option String
  args : Option InstructionArgs
  accounts : List AccountDump

/-- The dump for one whole signature. -/
structure SignatureDump where
  signature : String
  slot : Nat
  block_time : Option Int
  instructions : List InstructionDump

/-- The account-dump loop of collect_account_dump: positions in order,
global index resolved against the key table (out of bounds aborts), the
role taken positionally from the role list. -/
def collectDumpLoop (msg : TxMessage) (keys roles : List String) :
    Nat → List Nat → Except String (List AccountDump)
  | _, [] => .ok []
  | pos, a :: rest =>
      match keys[a]? with
      | none => .error "account index out of bounds"
      | some key =>
          match collectDumpLoop msg keys roles (pos + 1) rest with
          | .ok tail =>
              .ok (⟨pos, a, key, msg.isSigner a, msg.isWritable a, roles[pos]?⟩ :: tail)
          | .error e => .error e

/-- collect_account_dump from decoder.rs. -/
def collect_account_dump (msg : TxMessage) (ix : CompiledIx) (keys : List String)
    (kindLabel : Option String) : Except String (List AccountDump) :=
  collectDumpLoop msg keys (rolesFor kindLabel) 0 ix.accounts

/-- build_action_record from decoder.rs: movement records resolve the
user token account by role and its mint through the token lookup; order
records carry the order fields, with perp/spot market index split by
market type. -/
def build_action_record (signature : String) (slot : Nat) (blockTime : Option Int)
    (instructionIndex : Nat) (decoded : InstructionArgs) (accounts : List AccountDump)
    (tokenLookup : MintMap) : Except String (Option ActionRecord) :=
  match decoded with
  | .depositIntoIsolatedPerpPosition a | .withdrawFromIsolatedPerpPosition a =>
      let tokenAccount := accounts.find? (fun acc => acc.role == some "userTokenAccount")
      .ok (some
        { signature := signature, slot := slot, block_time := blockTime,
          instruction_index := instructionIndex, action_type := decoded.kind.toLabel,
          market_index := some a.perp_market_index,
          perp_market_index := some a.perp_market_index,
          spot_market_index := some a.spot_market_index,
          direction := none, base_asset_amount := none, price := none,
          reduce_only := none, leverage := none,
          amount := some a.amount,
          token_account := tokenAccount.map (fun acc => acc.pubkey),
          token_mint := tokenAccount.bind (fun acc => mintMapGet tokenLookup acc.message_index),
          token_amount := some a.amount })
  | .placePerpOrder p =>
      .ok (some
        { signature := signature, slot := slot, block_time := blockTime,
          instruction_index := instructionIndex, action_type := decoded.kind.toLabel,
          market_index := some p.market_index,
          perp_market_index := if p.market_type = .perp then some p.market_index else none,
          spot_market_index := if p.market_type = .spot then some p.market_index else none,
          direction := some p.direction.asStr,
          base_asset_amount := some p.base_asset_amount,
          price := some p.price, reduce_only := some p.reduce_only,
          leverage := none, amount := none, token_account := none, token_mint := none,
          token_amount := none })

/-- The decode step of the loop: a decode error is logged and collapsed
to none rather than propagated. -/
def decodeOrNone (data : List Byte) : Option InstructionArgs :=
  match decode_drift_instruction data with
  | .ok res => res
  | .error _ => none

/-- Context threaded through the instruction loop. -/
structure DecodeCtx where
  driftProgram : String
  signature : String
  slot : Nat
  blockTime : Option Int
  msg : TxMessage
  keys : List String
  lookup : MintMap

/-- The if-let push of the loop body: build the record only for a
successfully decoded instruction. -/
def buildRecordStep (ctx : DecodeCtx) (ixIdx : Nat) (decodeResult : Option InstructionArgs)
    (accounts : List AccountDump) : Except String (Option ActionRecord) :=
  match decodeResult with
  | some decoded =>
      build_action_record ctx.signature ctx.slot ctx.blockTime ixIdx decoded accounts ctx.lookup
  | none => .ok none

/-- The instruction loop of decode_signature: skip instructions of other
programs, recover locally from decode failures, abort on out-of-bounds
program or account indices, and collect dumps, records and the
drift-instruction-found flag. -/
def processInstructions (ctx : DecodeCtx) :
    Nat → List CompiledIx → Except String (List InstructionDump × List ActionRecord × Bool)
  | _, [] => .ok ([], [], false)
  | ixIdx, ix :: rest =>
      match ctx.keys[ix.programIdIndex]? with
      | none => .error "program index out of bounds"
      | some programId =>
          if programId = ctx.driftProgram then
            match collect_account_dump ctx.msg ix ctx.keys
                ((decodeOrNone ix.data).map (fun d => d.kind.toLabel)) with
            | .error e => .error e
            | .ok accounts =>
                match buildRecordStep ctx ixIdx (decodeOrNone ix.data) accounts with
                | .error e => .error e
                | .ok optRecord =>
                    match processInstructions ctx (ixIdx + 1) rest with
                    | .error e => .error e
                    | .ok (dumps, records, _) =>
                        .ok (⟨ixIdx, format_discriminator ix.data, base64Encode ix.data,
                              ix.data.length, programId,
                              (decodeOrNone ix.data).map (fun d => d.kind.toLabel),
                              decodeOrNone ix.data, accounts⟩ :: dumps,
                             optRecord.toList ++ records, true)
          else processInstructions ctx (ixIdx + 1) rest

/-- The context decode_signature builds after fetching the transaction. -/
def decodeCtxOf (driftProgram sigStr : String) (slot : Nat) (blockTime : Option Int)
    (meta : TxMeta) (msg : TxMessage) : DecodeCtx :=
  ⟨driftProgram, sigStr, slot, blockTime, msg, collect_account_keys msg meta,
   build_token_mint_lookup meta⟩

/-- decode_signature from decoder.rs, after the RPC fetch and binary
decode of the transaction: run the instruction loop and assemble the
signature dump and the action records. -/
def decode_signature_core (driftProgram sigStr : String) (slot : Nat) (blockTime : Option Int)
    (meta : TxMeta) (msg : TxMessage) :
    Except String (SignatureDump × List ActionRecord) :=
  match processInstructions (decodeCtxOf driftProgram sigStr slot blockTime meta msg)
      0 msg.instructions with
  | .error e => .error e
  | .ok (dumps, records, _found) => .ok (⟨sigStr, slot, blockTime, dumps⟩, records)

/-- Whether an instruction belongs to the configured drift program. -/
def isDriftIx (ctx : DecodeCtx) (ix : CompiledIx) : Bool :=
  ctx.keys[ix.programIdIndex]? == some ctx.driftProgram

/-- The account dump of one account position, written as a total function
of the enumerated pair (used to state what the loop produces). -/
def dumpOfAccount (msg : TxMessage) (keys roles : List String) (pa : Nat × Nat) : AccountDump :=
  ⟨pa.1, pa.2, (keys[pa.2]?).getD "", msg.isSigner pa.2, msg.isWritable pa.2, roles[pa.1]?⟩

/-- The account dumps of one instruction, independent of the others. -/
def perIxAccounts (ctx : DecodeCtx) (ix : CompiledIx) : List AccountDump :=
  (List.enumFrom 0 ix.accounts).map
    (dumpOfAccount ctx.msg ctx.keys
      (rolesFor ((decodeOrNone ix.data).map (fun d => d.kind.toLabel))))

/-- The optional action record of one instruction. -/
def perIxOptRecord (ctx : DecodeCtx) (ixIdx : Nat) (decodeResult : Option InstructionArgs)
    (accounts : List AccountDump) : Option ActionRecord :=
  match decodeResult with
  | some decoded =>
      match build_action_record ctx.signature ctx.slot ctx.blockTime ixIdx decoded accounts
          ctx.lookup with
      | .ok o => o
      | .error _ => none
  | none => none

/-- The instruction dump of one instruction, independent of the others. -/
def perIxDump (ctx : DecodeCtx) (iix : Nat × CompiledIx) : InstructionDump :=
  ⟨iix.1, format_discriminator iix.2.data, base64Encode iix.2.data, iix.2.data.length,
   (ctx.keys[iix.2.programIdIndex]?).getD "",
   (decodeOrNone iix.2.data).map (fun d => d.kind.toLabel),
   decodeOrNone iix.2.data, perIxAccounts ctx iix.2⟩

/-- The action records contributed by one instruction. -/
def perIxRecords (ctx : DecodeCtx) (iix : Nat × CompiledIx) : List ActionRecord :=
  (perIxOptRecord ctx iix.1 (decodeOrNone iix.2.data) (perIxAccounts ctx iix.2)).toList

/-- In-bounds condition for one instruction against the key table. -/
def ixWF (keys : List String) (ix : CompiledIx) : Prop :=
  ix.programIdIndex < keys.length ∧ ∀ a ∈ ix.accounts, a < keys.length

instance (keys : List String) (ix : CompiledIx) : Decidable (ixWF keys ix) := by
  unfold ixWF
  infer_instance

/-- build_action_record never fails. -/
theorem buildRecordStep_eq (ctx : DecodeCtx) (ixIdx : Nat)
    (decodeResult : Option InstructionArgs) (accounts : List AccountDump) :
    buildRecordStep ctx ixIdx decodeResult accounts =
      .ok (perIxOptRecord ctx ixIdx decodeResult accounts) := by
  cases decodeResult with
  | none => rfl
  | some decoded => cases decoded <;> rfl

/-- The account-dump loop succeeds on in-bounds indices and produces the
positional dumps. -/
theorem collectDumpLoop_spec (msg : TxMessage) (keys roles : List String) :
    ∀ (accts : List Nat) (pos : Nat), (∀ a ∈ accts, a < keys.length) →
    collectDumpLoop msg keys roles pos accts =
      .ok ((List.enumFrom pos accts).map (dumpOfAccount msg keys roles)) := by
  intro accts
  induction accts with
  | nil => intro pos _; rfl
  | cons a rest ih =>
      intro pos h
      have ha : a < keys.length := h a (by simp)
      have hsome : keys[a]? = some keys[a] := List.getElem?_eq_getElem ha
      rw [collectDumpLoop, hsome, ih (pos + 1) (fun x hx => h x (by simp [hx]))]
      simp [dumpOfAccount, List.enumFrom, hsome]

/-- The instruction loop equals the per-instruction composition: each
drift instruction contributes its own dump and records, independent of
the success or failure of the others. -/
theorem processInstructions_spec (ctx : DecodeCtx) :
    ∀ (ixs : List CompiledIx) (start : Nat), (∀ ix ∈ ixs, ixWF ctx.keys ix) →
    processInstructions ctx start ixs =
      .ok (((List.enumFrom start ixs).filter (fun e => isDriftIx ctx e.2)).map (perIxDump ctx),
           (((List.enumFrom start ixs).filter (fun e => isDriftIx ctx e.2)).map
             (perIxRecords ctx)).join,
           ixs.any (fun ix => isDriftIx ctx ix)) := by
  intro ixs
  induction ixs with
  | nil => intro start _; rfl
  | cons ix rest ih =>
      intro start h
      have hpi : ix.programIdIndex < ctx.keys.length := (h ix (by simp)).1
      have hacc : ∀ a ∈ ix.accounts, a < ctx.keys.length := (h ix (by simp)).2
      have hsome : ctx.keys[ix.programIdIndex]? = some ctx.keys[ix.programIdIndex] :=
        List.getElem?_eq_getElem hpi
      have hrest := ih (start + 1) (fun x hx => h x (by simp [hx]))
      simp only [processInstructions, hsome]
      by_cases hdp : ctx.keys[ix.programIdIndex] = ctx.driftProgram
      · have hdrift : isDriftIx ctx ix = true := by
          simp [isDriftIx, hsome, hdp]
        simp only [if_pos hdp, collect_account_dump,
            collectDumpLoop_spec ctx.msg ctx.keys _ ix.accounts 0 hacc,
            buildRecordStep_eq, hrest]
        simp [List.enumFrom, List.filter_cons, hdrift, perIxDump, perIxAccounts,
              perIxRecords, hsome, hdp, List.any_cons]
      · have hdrift : isDriftIx ctx ix = false := by
          simp [isDriftIx, hsome, hdp]
        simp only [if_neg hdp, hrest]
        simp [List.enumFrom, List.filter_cons, hdrift, List.any_cons]

/-- C6: with all account and program indices in bounds, decode_signature
succeeds and equals the independent per-instruction composition — every
drift instruction appears in the dump, a decode failure on one
instruction leaves its dump with kind none and contributes no action
record, and every other instruction is decoded normally, unaffected. -/
theorem C6_decode_failure_isolated (dp sigStr : String) (slot : Nat) (blockTime : Option Int)
    (meta : TxMeta) (msg : TxMessage)
    (hWF : ∀ ix ∈ msg.instructions, ixWF (collect_account_keys msg meta) ix) :
    decode_signature_core dp sigStr slot blockTime meta msg =
      .ok (⟨sigStr, slot, blockTime,
            ((msg.instructions.enum).filter
              (fun e => isDriftIx (decodeCtxOf dp sigStr slot blockTime meta msg) e.2)).map
              (perIxDump (decodeCtxOf dp sigStr slot blockTime meta msg))⟩,
           (((msg.instructions.enum).filter
              (fun e => isDriftIx (decodeCtxOf dp sigStr slot blockTime meta msg) e.2)).map
              (perIxRecords (decodeCtxOf dp sigStr slot blockTime meta msg))).join) ∧
    (∀ (i : Nat) (ix : CompiledIx) (err : DecodeError),
      decode_drift_instruction ix.data = .error err →
      (perIxDump (decodeCtxOf dp sigStr slot blockTime meta msg) (i, ix)).kind = none ∧
      perIxRecords (decodeCtxOf dp sigStr slot blockTime meta msg) (i, ix) = []) := by
  constructor
  · have hkeys : (decodeCtxOf dp sigStr slot blockTime meta msg).keys =
        collect_account_keys msg meta := rfl
    have hspec := processInstructions_spec (decodeCtxOf dp sigStr slot blockTime meta msg)
      msg.instructions 0 (by rw [hkeys]; exact hWF)
    rw [decode_signature_core, hspec]
    rfl
  · intro i ix err herr
    constructor
    · simp [perIxDump, decodeOrNone, herr]
    · simp [perIxRecords, perIxOptRecord, decodeOrNone, herr]

/-- A two-instruction drift transaction: the first instruction carries a
bare deposit discriminator with no argument bytes (its borsh decode
fails), the second a complete encoded deposit. -/
def wMsg : TxMessage :=
  ⟨["drift", "k1"],
   [⟨0, [1], DEPOSIT_DISC⟩,
    ⟨0, [1], specEncodeInstructionArgs (.depositIntoIsolatedPerpPosition ⟨0, 0, 5⟩)⟩],
   fun _ => false, fun _ => true⟩

/-- Meta with no loaded addresses and no token balances. -/
def wMeta : TxMeta := ⟨[], [], none, none⟩

/-- Witness for C6 on the concrete transaction: the whole decode succeeds
as the per-instruction composition even though the first drift
instruction fails to decode. -/
theorem C6_decode_failure_isolated_witness :
    decode_signature_core "drift" "sig" 1 none wMeta wMsg =
      .ok (⟨"sig", 1, none,
            ((wMsg.instructions.enum).filter
              (fun e => isDriftIx (decodeCtxOf "drift" "sig" 1 none wMeta wMsg) e.2)).map
              (perIxDump (decodeCtxOf "drift" "sig" 1 none wMeta wMsg))⟩,
           (((wMsg.instructions.enum).filter
              (fun e => isDriftIx (decodeCtxOf "drift" "sig" 1 none wMeta wMsg) e.2)).map
              (perIxRecords (decodeCtxOf "drift" "sig" 1 none wMeta wMsg))).join) :=
  (C6_decode_failure_isolated "drift" "sig" 1 none wMeta wMsg (by decide)).1

end Drift
